import Mathlib

/-!
Verification of the architecture-assembler and VAE core of the repository.

The Python modules `hw2/cnn.py` and `hw3/autoencoder.py` are embedded
shallowly: layer construction becomes pure functions producing lists of
tagged layer records, forward passes become functions on real-valued
tensors (functions from indices to `ℝ`), and the loss is a function on
real-valued batches.  Structural code (layer lists, counters, sizes) is
kept fully computable; real-valued semantics is noncomputable.
-/

/-- One atomic operation of an architecture, a closed record of its
hyperparameters (weights live in the semantics, not in the record).
Mirrors the `nn.Module` leaves used by the repository. -/
inductive Layer where
  | conv2d (inC outC k pad stride : ℕ) (bias : Bool)
  | convTranspose2d (inC outC k pad stride : ℕ) (bias : Bool)
  | relu
  | elu (alpha : ℚ)
  | leakyRelu
  | sigmoid
  | tanh
  | dropout (p : ℚ)
  | dropout2d (p : ℚ)
  | batchNorm2d (c : ℕ)
  | maxPool2d (k stride : ℕ)
  | linear (inF outF : ℕ)
  deriving DecidableEq

/-- Python list indexing `l[i]` with support for negative indices
(`l[-k]` reads `l[len l - k]`), as used by `channels[-1]` and by the
index `idx + N_divisable - 1` which can evaluate to `-1`. -/
def pyGet (l : List ℕ) (i : ℤ) : ℕ :=
  if 0 ≤ i then l.getD i.toNat 0 else l.getD (l.length - (-i).toNat) 0

/-- Python slice `l[a:b]` for non-negative bounds (clamped like Python). -/
def pySlice (l : List ℕ) (a b : ℕ) : List ℕ :=
  (l.take b).drop a

/-- `True` exactly on max-pooling layers. -/
def isPoolLayer : Layer → Bool
  | Layer.maxPool2d _ _ => true
  | _ => false

/-- `True` exactly on convolution layers. -/
def isConvLayer : Layer → Bool
  | Layer.conv2d _ _ _ _ _ _ => true
  | _ => false

/-- The layers of the main path that come after the last convolution
(empty when the main path ends in a convolution). -/
def afterLastConv (l : List Layer) : List Layer :=
  (l.reverse.takeWhile (fun a => !isConvLayer a)).reverse

/-- `ConvClassifier._make_feature_extractor` from `hw2/cnn.py`:
the layer list together with the final `pool_cntr` value (the counter is
incremented exactly in the branch that appends a max-pool). -/
def convFeatureExtractor (in_channels : ℕ) (channels : List ℕ) (pool_every : ℕ) :
    List Layer × ℕ :=
  let N := channels.length
  let Ndiv := N - N % pool_every
  let remaining := N % pool_every
  let body := (List.range' 1 (Ndiv - 1)).map (fun idx =>
    [Layer.conv2d (channels.getD (idx - 1) 0) (channels.getD idx 0) 3 1 1 true,
     Layer.relu]
    ++ (if (idx - 1) % pool_every = 0 then [Layer.maxPool2d 2 2] else []))
  let tail := (List.range remaining).map (fun idx =>
    [Layer.conv2d (pyGet channels (Int.ofNat (idx + Ndiv) - 1)) (channels.getD (idx + Ndiv) 0) 3 1 1 true,
     Layer.relu])
  ([Layer.conv2d in_channels (channels.getD 0 0) 3 1 1 true, Layer.relu]
     ++ body.flatten ++ tail.flatten,
   ((List.range' 1 (Ndiv - 1)).filter (fun idx => (idx - 1) % pool_every = 0)).length)

/-- `ResidualBlock.__init__`'s `main_path` from `hw2/cnn.py`. -/
def ResidualBlock.mainPath (in_channels : ℕ) (channels kernel_sizes : List ℕ)
    (batchnorm : Bool) (dropout : ℚ) : List Layer :=
  [Layer.conv2d in_channels (channels.getD 0 0) (kernel_sizes.getD 0 0)
     (kernel_sizes.getD 0 0 / 2) 1 true,
   Layer.dropout2d dropout]
  ++ (if batchnorm then [Layer.batchNorm2d (channels.getD 0 0)] else [])
  ++ [Layer.relu]
  ++ ((List.range (channels.length - 1)).map (fun idx =>
       Layer.conv2d (channels.getD idx 0) (channels.getD (idx + 1) 0)
         (kernel_sizes.getD (idx + 1) 0) (kernel_sizes.getD (idx + 1) 0 / 2) 1 true
       :: (if idx < channels.length - 2 then
             [Layer.relu, Layer.dropout2d dropout]
             ++ (if batchnorm then [Layer.batchNorm2d (channels.getD (idx + 1) 0)] else [])
           else []))).flatten

/-- `ResidualBlock.__init__`'s `shortcut_path` from `hw2/cnn.py`:
a bias-free 1x1 convolution when the channel counts differ, otherwise the
empty sequence (identity). -/
def ResidualBlock.shortcutPath (in_channels : ℕ) (channels : List ℕ) : List Layer :=
  if pyGet channels (-1) ≠ in_channels then
    [Layer.conv2d in_channels (pyGet channels (-1)) 1 0 1 false]
  else []

/-- One element of a ResNet feature extractor: either a plain layer or a
whole residual block (recorded by its construction arguments). -/
inductive NetItem where
  | layer (l : Layer)
  | block (in_channels : ℕ) (channels kernel_sizes : List ℕ)
      (batchnorm : Bool) (dropout : ℚ)
  deriving DecidableEq

/-- `True` exactly on max-pooling items. -/
def isPoolItem : NetItem → Bool
  | NetItem.layer (Layer.maxPool2d _ _) => true
  | _ => false

/-- `ResNetClassifier._make_feature_extractor` from `hw2/cnn.py`:
the item list together with the final `pool_cntr` value. -/
def resnetFeatureExtractor (in_channels : ℕ) (channels : List ℕ) (pool_every : ℕ) :
    List NetItem × ℕ :=
  let N := channels.length
  let Ndiv := N - N % pool_every
  let remaining := N % pool_every
  let numKer := (pySlice channels 0 pool_every).length
  let head := [NetItem.block in_channels (pySlice channels 0 pool_every)
                 (List.replicate numKer 3) false 0,
               NetItem.layer (Layer.maxPool2d 2 2)]
  let body := (List.range (Ndiv / pool_every)).map (fun k =>
    let idx := k * pool_every
    if idx = 0 then [] else
    [NetItem.block (channels.getD (idx - 1) 0) (pySlice channels idx (idx + pool_every))
       (List.replicate pool_every 3) false 0,
     NetItem.layer (Layer.maxPool2d 2 2)])
  let tail := if 0 < remaining then
      [NetItem.block (pyGet channels ((Ndiv : ℤ) - 1))
         (pySlice channels Ndiv (Ndiv + remaining)) (List.replicate remaining 3) false 0]
    else []
  (head ++ body.flatten ++ tail,
   1 + ((List.range (Ndiv / pool_every)).filter (fun k => ¬ k * pool_every = 0)).length)

/-- The flattened feature size computed by `ConvClassifier._make_classifier`:
`channels[-1] * (H // 2**pool_cntr) * (W // 2**pool_cntr)`. -/
def flattenedSize (channels : List ℕ) (pool_cntr H W : ℕ) : ℕ :=
  pyGet channels (-1) * (H / 2 ^ pool_cntr) * (W / 2 ^ pool_cntr)

/-- The loop of `ConvClassifier._make_classifier`: threads the running
input dimension through the hidden widths, appending `Linear -> ReLU`
pairs; returns the layers and the final input dimension. -/
def classifierLoop : ℕ → List ℕ → List Layer × ℕ
  | d, [] => ([], d)
  | d, h :: t =>
      let r := classifierLoop h t
      (Layer.linear d h :: Layer.relu :: r.1, r.2)

/-- `ConvClassifier._make_classifier` from `hw2/cnn.py`. -/
def makeClassifier (channels : List ℕ) (pool_cntr H W : ℕ)
    (hidden_dims : List ℕ) (out_classes : ℕ) : List Layer :=
  let mlp_in := flattenedSize channels pool_cntr H W
  let r := classifierLoop mlp_in hidden_dims
  r.1 ++ [Layer.linear r.2 out_classes]

/-- The classifier-head shape stated by the spec (second definition for the
refinement claim, following the spec's words): `M` (linear -> activation)
stages for the `M` hidden widths, then one final linear projection to
`out_classes` with no trailing activation. -/
def classifierHeadSpec (d : ℕ) (hidden_dims : List ℕ) (out_classes : ℕ) : List Layer :=
  match hidden_dims with
  | [] => [Layer.linear d out_classes]
  | h :: t => Layer.linear d h :: Layer.relu :: classifierHeadSpec h t out_classes

/-- A constructed `ConvClassifier`: feature layers, the recorded pooling
counter, and the classifier head. -/
structure ConvModel where
  features : List Layer
  pool_cntr : ℕ
  classifier : List Layer
  deriving DecidableEq

/-- `ConvClassifier.__init__` from `hw2/cnn.py`: the `assert channels and
hidden_dims` guard, then the feature extractor followed by the classifier
(which reads the `pool_cntr` recorded by the extractor).  `none` models a
construction-time exception: the assertion failure on empty lists, or the
zero-division error that `N % self.pool_every` raises inside
`_make_feature_extractor` when `pool_every = 0` (`convFeatureExtractor`
itself is faithful to the source only for `pool_every >= 1`, so that
error path is checked here, before it is entered). -/
def ConvClassifier.mk (in_size : ℕ × ℕ × ℕ) (out_classes : ℕ) (channels : List ℕ)
    (pool_every : ℕ) (hidden_dims : List ℕ) : Option ConvModel :=
  if channels = [] ∨ hidden_dims = [] then none
  else if pool_every = 0 then none
  else
    let fe := convFeatureExtractor in_size.1 channels pool_every
    some ⟨fe.1, fe.2,
          makeClassifier channels fe.2 in_size.2.1 in_size.2.2 hidden_dims out_classes⟩

/-- `EncoderConv.__init__`'s layer list from `hw3/autoencoder.py`: first
convolution, dropout, optional batchnorm, `ELU(alpha=0.5)`, then the inner
loop of convolutions (each followed by `ReLU`, dropout, optional batchnorm
except for the last two), and a final `Sigmoid`. -/
def encoderConvLayers (in_channels : ℕ) (channels kernel_sizes stride_list padding_list : List ℕ)
    (batchnorm : Bool) (dropout : ℚ) (bias_flag : Bool) : List Layer :=
  [Layer.conv2d in_channels (channels.getD 0 0) (kernel_sizes.getD 0 0)
     (padding_list.getD 0 0) (stride_list.getD 0 0) bias_flag,
   Layer.dropout2d dropout]
  ++ (if batchnorm then [Layer.batchNorm2d (channels.getD 0 0)] else [])
  ++ [Layer.elu (1/2)]
  ++ ((List.range (channels.length - 1)).map (fun idx =>
       Layer.conv2d (channels.getD idx 0) (channels.getD (idx + 1) 0)
         (kernel_sizes.getD (idx + 1) 0) (padding_list.getD (idx + 1) 0)
         (stride_list.getD (idx + 1) 0) bias_flag
       :: (if idx < channels.length - 2 then
             [Layer.relu, Layer.dropout2d dropout]
             ++ (if batchnorm then [Layer.batchNorm2d (channels.getD (idx + 1) 0)] else [])
           else []))).flatten
  ++ [Layer.sigmoid]

/-- `DecoderConv.__init__`'s layer list from `hw3/autoencoder.py`: the
transposed-convolution mirror of `encoderConvLayers`, with no trailing
activation appended to the list. -/
def decoderConvLayers (in_channels : ℕ) (channels kernel_sizes stride_list padding_list : List ℕ)
    (batchnorm : Bool) (dropout : ℚ) (bias_flag : Bool) : List Layer :=
  [Layer.convTranspose2d in_channels (channels.getD 0 0) (kernel_sizes.getD 0 0)
     (padding_list.getD 0 0) (stride_list.getD 0 0) bias_flag,
   Layer.dropout2d dropout]
  ++ (if batchnorm then [Layer.batchNorm2d (channels.getD 0 0)] else [])
  ++ [Layer.elu (1/2)]
  ++ ((List.range (channels.length - 1)).map (fun idx =>
       Layer.convTranspose2d (channels.getD idx 0) (channels.getD (idx + 1) 0)
         (kernel_sizes.getD (idx + 1) 0) (padding_list.getD (idx + 1) 0)
         (stride_list.getD (idx + 1) 0) bias_flag
       :: (if idx < channels.length - 2 then
             [Layer.relu, Layer.dropout2d dropout]
             ++ (if batchnorm then [Layer.batchNorm2d (channels.getD (idx + 1) 0)] else [])
           else []))).flatten

/-- `EncoderCNN.__init__` from `hw3/autoencoder.py`: it instantiates
`EncoderConv` with channels `[256, 512, 1024, out_channels]`, kernel size 4,
strides `[2, 2, 2, 1]`, paddings `[1, 1, 1, 0]` (batchnorm and dropout at
their `EncoderConv` defaults) and re-wraps the raw `layers_list` in a new
`nn.Sequential`. -/
def EncoderCNN.layers (in_channels out_channels : ℕ) : List Layer :=
  encoderConvLayers in_channels [256, 512, 1024, out_channels] [4, 4, 4, 4]
    [2, 2, 2, 1] [1, 1, 1, 0] true (1/10) false

/-- `DecoderCNN.__init__` from `hw3/autoencoder.py`: `DecoderConv` with
channels `[1024, 512, 256, out_channels]`, kernel size 4, strides
`[1, 2, 2, 2]`, paddings `[0, 1, 1, 1]`, raw layer list re-wrapped. -/
def DecoderCNN.layers (in_channels out_channels : ℕ) : List Layer :=
  decoderConvLayers in_channels [1024, 512, 256, out_channels] [4, 4, 4, 4]
    [1, 2, 2, 2] [0, 1, 1, 1] true (1/10) false

/-- A batched tensor of shape `(N, C, H, W)`: indices batch, channel,
height, width to a real value. -/
def Tensor4 : Type := ℕ → ℕ → ℕ → ℕ → ℝ

/-- A batched matrix of shape `(N, F)`: indices batch, feature. -/
def Mat2 : Type := ℕ → ℕ → ℝ

/-- Pointwise semantics of one layer.  Activations have their concrete
real semantics; the parameter-carrying layers (convolutions, dropout,
batchnorm, pooling, linear) are interpreted by the environment `σ`, which
stands for their trained weights and mode. -/
noncomputable def applyLayer (σ : Layer → Tensor4 → Tensor4) (l : Layer) (x : Tensor4) : Tensor4 :=
  match l with
  | Layer.relu => fun n c i j => max (x n c i j) 0
  | Layer.sigmoid => fun n c i j => 1 / (1 + Real.exp (-(x n c i j)))
  | Layer.tanh => fun n c i j => Real.tanh (x n c i j)
  | Layer.elu a => fun n c i j =>
      if 0 < x n c i j then x n c i j else (a : ℝ) * (Real.exp (x n c i j) - 1)
  | Layer.leakyRelu => fun n c i j =>
      if 0 ≤ x n c i j then x n c i j else (1/100) * x n c i j
  | l => σ l x

/-- `nn.Sequential`: apply the layers strictly in order. -/
noncomputable def applyLayers (σ : Layer → Tensor4 → Tensor4) (ls : List Layer) (x : Tensor4) : Tensor4 :=
  ls.foldl (fun t l => applyLayer σ l t) x

/-- `ResidualBlock.forward` from `hw2/cnn.py`: main path output, plus the
shortcut output, then `torch.relu`. -/
noncomputable def ResidualBlock.forward (σ : Layer → Tensor4 → Tensor4) (in_channels : ℕ)
    (channels kernel_sizes : List ℕ) (batchnorm : Bool) (dropout : ℚ) (x : Tensor4) : Tensor4 :=
  let out := applyLayers σ (ResidualBlock.mainPath in_channels channels kernel_sizes batchnorm dropout) x
  let out2 : Tensor4 := fun n c i j =>
    out n c i j + applyLayers σ (ResidualBlock.shortcutPath in_channels channels) x n c i j
  fun n c i j => max (out2 n c i j) 0

/-- `EncoderCNN.forward` from `hw3/autoencoder.py`: it runs `self.cnn`
(the re-wrapped raw layer list) directly, so the extra `torch.relu` of
`EncoderConv.forward` is never applied. -/
noncomputable def EncoderCNN.forward (σ : Layer → Tensor4 → Tensor4) (in_channels out_channels : ℕ)
    (x : Tensor4) : Tensor4 :=
  applyLayers σ (EncoderCNN.layers in_channels out_channels) x

/-- `DecoderCNN.forward` from `hw3/autoencoder.py`: `torch.tanh` applied to
the output of the raw layer stack. -/
noncomputable def DecoderCNN.forward (σ : Layer → Tensor4 → Tensor4) (in_channels out_channels : ℕ)
    (h : Tensor4) : Tensor4 :=
  fun n c i j => Real.tanh (applyLayers σ (DecoderCNN.layers in_channels out_channels) h n c i j)

/-- `x.view(N, -1)`: row-major flattening of the `(C, H, W)` dimensions of
a per-sample feature map into one feature index. -/
def flattenT (C H W : ℕ) (t : Tensor4) : Mat2 :=
  fun n f => t n (f / (H * W)) (f % (H * W) / W) (f % W)

/-- `z_dec.view(N, C, H, W)`: the inverse row-major reshape. -/
def unflattenT (C H W : ℕ) (v : Mat2) : Tensor4 :=
  fun n c i j => v n (c * (H * W) + i * W + j)

/-- `nn.Linear(in_features, out_features)` applied to a batch of feature
vectors: `out = x Wᵀ + b`. -/
noncomputable def linearB (W : ℕ → ℕ → ℝ) (b : ℕ → ℝ) (in_features : ℕ) (x : Mat2) : Mat2 :=
  fun n k => (Finset.range in_features).sum (fun i => W k i * x n i) + b k

/-- `VAE.encode` from `hw3/autoencoder.py`: encoder features, flattened,
two separate linear projections (`mu_fc`, `log_sigma2_fc`), and
`z = exp(0.5 * log_sigma2) * u + mu` with the drawn noise `u` passed in
explicitly.  Returns `(z, mu, log_sigma2)`. -/
noncomputable def VAE.encode (features_encoder : Tensor4 → Tensor4) (C H W in_fc_dim : ℕ)
    (Wmu : ℕ → ℕ → ℝ) (bmu : ℕ → ℝ) (Wlv : ℕ → ℕ → ℝ) (blv : ℕ → ℝ)
    (u : Mat2) (x : Tensor4) : Mat2 × Mat2 × Mat2 :=
  let encoded_features := features_encoder x
  let flat := flattenT C H W encoded_features
  let mu := linearB Wmu bmu in_fc_dim flat
  let log_sigma2 := linearB Wlv blv in_fc_dim flat
  let z : Mat2 := fun n k => Real.exp (0.5 * log_sigma2 n k) * u n k + mu n k
  (z, mu, log_sigma2)

/-- `VAE.decode` from `hw3/autoencoder.py`, with `features_decoder` the
`DecoderCNN`: linear projection `rec_fc` back to the cached feature count,
reshape to the cached feature shape `(fC, fH, fW)`, run the decoder, then
`torch.tanh`. -/
noncomputable def VAE.decode (σ : Layer → Tensor4 → Tensor4) (Wrec : ℕ → ℕ → ℝ) (brec : ℕ → ℝ)
    (z_dim fC fH fW dec_in dec_out : ℕ) (z : Mat2) : Tensor4 :=
  let z_dec := linearB Wrec brec z_dim z
  let resh := unflattenT fC fH fW z_dec
  let x_rec := DecoderCNN.forward σ dec_in dec_out resh
  fun n c i j => Real.tanh (x_rec n c i j)

/-- Sum of a real-valued function over the index box `(N, K)`. -/
noncomputable def sum2 (N K : ℕ) (f : ℕ → ℕ → ℝ) : ℝ :=
  (Finset.range N).sum (fun n => (Finset.range K).sum (fun k => f n k))

/-- Sum of a real-valued function over the index box `(N, C, H, W)`. -/
noncomputable def sum4 (N C H W : ℕ) (f : ℕ → ℕ → ℕ → ℕ → ℝ) : ℝ :=
  (Finset.range N).sum (fun n => (Finset.range C).sum (fun c =>
    (Finset.range H).sum (fun i => (Finset.range W).sum (fun j => f n c i j))))

/-- `t.norm()` for a `(N, C, H, W)` tensor: the Frobenius norm, the square
root of the sum of squared entries. -/
noncomputable def frobNorm4 (N C H W : ℕ) (t : Tensor4) : ℝ :=
  Real.sqrt (sum4 N C H W (fun n c i j => t n c i j ^ 2))

/-- `m.norm()` for a `(N, K)` matrix. -/
noncomputable def frobNorm2 (N K : ℕ) (m : Mat2) : ℝ :=
  Real.sqrt (sum2 N K (fun n k => m n k ^ 2))

/-- `vae_loss` from `hw3/autoencoder.py`.  `Nb, C, H, W` are the shape of
`x` and `xr`; `z_dim` is `z_mu.shape[1]`.  Note `dx` is the element count
of the whole batch, `x.shape[0]*x.shape[1]*x.shape[2]*x.shape[3]`.
Returns `(loss, data_loss, kldiv_loss)`. -/
noncomputable def vae_loss (Nb C H W z_dim : ℕ) (x xr : Tensor4) (z_mu z_log_sigma2 : Mat2)
    (x_sigma2 : ℝ) : ℝ × ℝ × ℝ :=
  let err : Tensor4 := fun n c i j => x n c i j - xr n c i j
  let dz : ℕ := z_dim
  let dx : ℕ := Nb * C * H * W
  let data_loss := (1 / x_sigma2) * (frobNorm4 Nb C H W err) ^ 2 / (dx : ℝ)
  let kldiv_loss := (sum2 Nb dz (fun n k => Real.exp (z_log_sigma2 n k))
      + (frobNorm2 Nb dz z_mu) ^ 2 - sum2 Nb dz (fun n k => z_log_sigma2 n k)) / (Nb : ℝ) - (dz : ℝ)
  (data_loss + kldiv_loss, data_loss, kldiv_loss)

lemma classifierLoop_spec (out_classes : ℕ) :
    ∀ (hidden_dims : List ℕ) (d : ℕ),
      (classifierLoop d hidden_dims).1 ++ [Layer.linear (classifierLoop d hidden_dims).2 out_classes]
        = classifierHeadSpec d hidden_dims out_classes := by
  intro hidden_dims
  induction hidden_dims with
  | nil => intro d; rfl
  | cons h t ih =>
      intro d
      simp only [classifierLoop, classifierHeadSpec, List.cons_append]
      rw [ih h]

/-- C4: the classifier head built by `ConvClassifier._make_classifier` has
first linear input size `channels[-1] * (H / 2^k) * (W / 2^k)`, then one
`(linear -> ReLU)` stage per hidden width, then a final linear projection to
`out_classes` with no trailing activation; in particular, for
`in_size = (3,32,32)`, `channels = [16,16,32,32]`, `pool_every = 2`,
`hidden_dims = [100]`, `out_classes = 10` the recorded pooling count is `2`
and the head is `2048 -> 100 -> ReLU -> 10`. -/
theorem classifier_head_structure :
    (∀ (channels : List ℕ) (k H W : ℕ) (hidden_dims : List ℕ) (out_classes : ℕ),
      makeClassifier channels k H W hidden_dims out_classes
        = classifierHeadSpec (flattenedSize channels k H W) hidden_dims out_classes)
    ∧ ConvClassifier.mk (3, 32, 32) 10 [16, 16, 32, 32] 2 [100]
        = some ⟨(convFeatureExtractor 3 [16, 16, 32, 32] 2).1, 2,
                [Layer.linear 2048 100, Layer.relu, Layer.linear 100 10]⟩ := by
  constructor
  · intro channels k H W hidden_dims out_classes
    unfold makeClassifier
    exact classifierLoop_spec out_classes hidden_dims (flattenedSize channels k H W)
  · decide

/-- C5 counterexample: with `in_size = (1,1,1)`, `channels = [1,1]`,
`pool_every = 2`, `hidden_dims = [1]` the flattened feature size computes
to `0`, yet construction succeeds (no error of any kind is raised). -/
theorem flattened_size_zero_construction_succeeds :
    flattenedSize [1, 1] (convFeatureExtractor 1 [1, 1] 2).2 1 1 = 0
    ∧ ConvClassifier.mk (1, 1, 1) 1 [1, 1] 2 [1] ≠ none := by
  constructor
  · decide
  · decide

/-- C5 amended: classifier construction never validates the flattened
feature size; it fails only when `channels` or `hidden_dims` is empty
(the `assert` in `__init__`) or when `pool_every` is zero (the
zero-division error raised by `N % self.pool_every` in the
feature-extractor builder), succeeding even when the flattened size is
zero. -/
theorem conv_classifier_mk_isSome_iff :
    ∀ (in_size : ℕ × ℕ × ℕ) (out_classes : ℕ) (channels : List ℕ)
      (pool_every : ℕ) (hidden_dims : List ℕ),
      (ConvClassifier.mk in_size out_classes channels pool_every hidden_dims).isSome = true
        ↔ (channels ≠ [] ∧ hidden_dims ≠ [] ∧ pool_every ≠ 0) := by
  intro in_size out_classes channels pool_every hidden_dims
  by_cases h1 : channels = [] ∨ hidden_dims = []
  · simp [ConvClassifier.mk, h1]
    tauto
  · by_cases h2 : pool_every = 0
    · simp [ConvClassifier.mk, h1, h2]
    · simp [ConvClassifier.mk, h1, h2]
      tauto

lemma afterLastConv_append_conv (l : List Layer) (a b c d e : ℕ) (f : Bool) :
    afterLastConv (l ++ [Layer.conv2d a b c d e f]) = [] := by
  unfold afterLastConv
  simp [isConvLayer]

lemma mainPath_afterLastConv (in_channels : ℕ) (channels kernel_sizes : List ℕ)
    (batchnorm : Bool) (dropout : ℚ) (h2 : 2 ≤ channels.length) :
    afterLastConv (ResidualBlock.mainPath in_channels channels kernel_sizes batchnorm dropout) = [] := by
  unfold ResidualBlock.mainPath
  have hn : channels.length - 1 = (channels.length - 2) + 1 := by omega
  rw [hn, List.range_succ, List.map_append, List.flatten_append]
  have hlast : ¬ (channels.length - 2 < channels.length - 2) := lt_irrefl _
  simp only [List.map_cons, List.map_nil, List.flatten_cons, List.flatten_nil,
    if_neg hlast, List.append_nil]
  rw [← List.append_assoc]
  exact afterLastConv_append_conv _ _ _ _ _ _ _

/-- C6 amended: for every ResidualBlock built from a channels list of
length at least 2, no activation, dropout or normalization follows the
last convolution inside the main path (the main path ends with that
convolution), and the activation is applied once, to the sum of the
main-path output and the shortcut output.  (For a length-1 channels list
the single convolution is followed by dropout, optional batchnorm and an
activation inside the main path, so the original statement fails there.) -/
theorem residual_block_no_ops_after_last_conv :
    ∀ (in_channels : ℕ) (channels kernel_sizes : List ℕ) (batchnorm : Bool) (dropout : ℚ)
      (σ : Layer → Tensor4 → Tensor4) (x : Tensor4),
      (2 ≤ channels.length →
        afterLastConv (ResidualBlock.mainPath in_channels channels kernel_sizes batchnorm dropout) = [])
      ∧ ResidualBlock.forward σ in_channels channels kernel_sizes batchnorm dropout x
          = fun n c i j =>
              max (applyLayers σ (ResidualBlock.mainPath in_channels channels kernel_sizes batchnorm dropout) x n c i j
                + applyLayers σ (ResidualBlock.shortcutPath in_channels channels) x n c i j) 0 := by
  intro in_channels channels kernel_sizes batchnorm dropout σ x
  constructor
  · intro h2
    exact mainPath_afterLastConv in_channels channels kernel_sizes batchnorm dropout h2
  · rfl

/-- Witness for the C6 theorem at `channels = [1, 1]`. -/
theorem residual_block_no_ops_after_last_conv_witness :
    afterLastConv (ResidualBlock.mainPath 1 [1, 1] [3, 3] false 0) = [] :=
  (residual_block_no_ops_after_last_conv 1 [1, 1] [3, 3] false 0
    (fun _ t => t) (fun _ _ _ _ => (0 : ℝ))).1 (by decide)

/-- C6 counterexample: for the length-1 channels list `[1]` the single
(hence last) convolution of the main path *is* followed by further
operations (dropout and the activation) inside the main path. -/
theorem residual_block_single_conv_trailing_ops :
    afterLastConv (ResidualBlock.mainPath 1 [1] [3] false 0) ≠ [] := by
  decide

/-- C7: `ResidualBlock.forward` computes
`activation(main_path(x) + shortcut(x))`; the shortcut behaves as the
identity when `in_channels = channels[-1]`, and otherwise is a single
bias-free 1x1 convolution from `in_channels` to `channels[-1]`. -/
theorem residual_block_forward_merge :
    ∀ (σ : Layer → Tensor4 → Tensor4) (in_channels : ℕ) (channels kernel_sizes : List ℕ)
      (batchnorm : Bool) (dropout : ℚ) (x : Tensor4),
      ResidualBlock.forward σ in_channels channels kernel_sizes batchnorm dropout x
          = (fun n c i j =>
              max (applyLayers σ (ResidualBlock.mainPath in_channels channels kernel_sizes batchnorm dropout) x n c i j
                + applyLayers σ (ResidualBlock.shortcutPath in_channels channels) x n c i j) 0)
      ∧ (pyGet channels (-1) = in_channels →
           applyLayers σ (ResidualBlock.shortcutPath in_channels channels) x = x)
      ∧ (pyGet channels (-1) ≠ in_channels →
           ResidualBlock.shortcutPath in_channels channels
             = [Layer.conv2d in_channels (pyGet channels (-1)) 1 0 1 false]) := by
  intro σ in_channels channels kernel_sizes batchnorm dropout x
  refine ⟨rfl, ?_, ?_⟩
  · intro h
    unfold ResidualBlock.shortcutPath
    rw [if_neg (by simp [h])]
    rfl
  · intro h
    unfold ResidualBlock.shortcutPath
    rw [if_pos h]

/-- Witness for the C7 theorem: identity shortcut at `in = 5`,
`channels = [5]`; projecting shortcut at `in = 1`, `channels = [2]`. -/
theorem residual_block_forward_merge_witness :
    applyLayers (fun _ t => t) (ResidualBlock.shortcutPath 5 [5])
        (fun _ _ _ _ => (0 : ℝ)) = (fun _ _ _ _ => (0 : ℝ))
    ∧ ResidualBlock.shortcutPath 1 [2] = [Layer.conv2d 1 2 1 0 1 false] :=
  ⟨(residual_block_forward_merge (fun _ t => t) 5 [5] [3] false 0
      (fun _ _ _ _ => (0 : ℝ))).2.1 (by decide),
   (residual_block_forward_merge (fun _ t => t) 1 [2] [3] false 0
      (fun _ _ _ _ => (0 : ℝ))).2.2 (by decide)⟩

lemma countP_flatten_map {α β : Type} (p : β → Bool) (f : α → List β) (l : List α) :
    ((l.map f).flatten).countP p = (l.map (fun a => (f a).countP p)).sum := by
  induction l with
  | nil => rfl
  | cons a t ih =>
      simp [List.map_cons, List.flatten_cons, List.countP_append, ih]

lemma sum_map_ite {α : Type} (p : α → Prop) [DecidablePred p] (l : List α) :
    (l.map (fun a => if p a then 1 else 0)).sum = (l.filter (fun a => p a)).length := by
  induction l with
  | nil => rfl
  | cons a t ih =>
      by_cases h : p a
      · simp [List.filter_cons, h, ih]
        omega
      · simp [List.filter_cons, h, ih]

lemma length_filter_range_mod (P : ℕ) (hP : 1 ≤ P) :
    ∀ m : ℕ, ((List.range m).filter (fun j => j % P = 0)).length = (m + P - 1) / P := by
  intro m
  induction m with
  | zero =>
      simp [Nat.div_eq_of_lt (show P - 1 < P from by omega)]
  | succ m ih =>
      rw [List.range_succ, List.filter_append, List.length_append, ih]
      by_cases h : m % P = 0
      · obtain ⟨k, hk⟩ := Nat.dvd_of_mod_eq_zero h
        have e1 : m + P - 1 = P * k + (P - 1) := by omega
        have e2 : m + 1 + P - 1 = P * k + P := by omega
        rw [e1, e2, Nat.mul_add_div (by omega), Nat.mul_add_div (by omega),
          Nat.div_eq_of_lt (by omega : P - 1 < P), Nat.div_self (by omega : 0 < P)]
        simp [List.filter_cons, h]
      · have hd := Nat.div_add_mod m P
        have hr2 : m % P < P := Nat.mod_lt _ (by omega)
        have hr1 : 1 ≤ m % P := by omega
        have e1 : m + P - 1 = P * (m / P) + (m % P - 1 + P) := by omega
        have e2 : m + 1 + P - 1 = P * (m / P) + (m % P + P) := by omega
        rw [e1, e2, Nat.mul_add_div (by omega), Nat.mul_add_div (by omega),
          Nat.add_div_right _ (by omega : 0 < P), Nat.add_div_right _ (by omega : 0 < P),
          Nat.div_eq_of_lt (by omega : m % P - 1 < P), Nat.div_eq_of_lt hr2]
        simp [List.filter_cons, h]

lemma length_filter_range'_shift (P m : ℕ) :
    ((List.range' 1 m).filter (fun idx => (idx - 1) % P = 0)).length
      = ((List.range m).filter (fun j => j % P = 0)).length := by
  rw [List.range'_eq_map_range, List.filter_map, List.length_map]
  congr 1
  apply List.filter_congr
  intro j _
  simp [Nat.add_sub_cancel_left]

lemma plain_pool_cntr_eq (in_channels : ℕ) (channels : List ℕ) (P : ℕ)
    (hP : 2 ≤ P) (hN : P ≤ channels.length) :
    (convFeatureExtractor in_channels channels P).2 = channels.length / P := by
  rw [show (convFeatureExtractor in_channels channels P).2
      = ((List.range' 1 (channels.length - channels.length % P - 1)).filter
          (fun idx => (idx - 1) % P = 0)).length from rfl]
  rw [length_filter_range'_shift, length_filter_range_mod P (by omega)]
  have hd := Nat.div_add_mod channels.length P
  have hq : 1 ≤ channels.length / P := (Nat.one_le_div_iff (by omega)).2 hN
  set M := P * (channels.length / P) with hM
  have hMP : P ≤ M := by
    calc P = P * 1 := (Nat.mul_one P).symm
    _ ≤ M := by rw [hM]; exact Nat.mul_le_mul_left P hq
  have e : channels.length - channels.length % P - 1 + P - 1 = M + (P - 2) := by omega
  rw [e, hM, Nat.mul_add_div (by omega), Nat.div_eq_of_lt (by omega : P - 2 < P)]
  omega

lemma plain_pool_count_eq_cntr (in_channels : ℕ) (channels : List ℕ) (P : ℕ) :
    (convFeatureExtractor in_channels channels P).1.countP isPoolLayer
      = (convFeatureExtractor in_channels channels P).2 := by
  unfold convFeatureExtractor
  simp only [List.countP_append, countP_flatten_map, apply_ite (List.countP isPoolLayer),
    List.countP_cons, List.countP_nil, isPoolLayer]
  simp only [cond_false, Bool.false_eq_true, if_false, if_true, Nat.add_zero, Nat.zero_add]
  rw [sum_map_ite (fun idx => (idx - 1) % P = 0)]
  simp

lemma sum_map_ite_neg {α : Type} (p : α → Prop) [DecidablePred p] (l : List α) :
    (l.map (fun a => if p a then 0 else 1)).sum = (l.filter (fun a => ¬ p a)).length := by
  induction l with
  | nil => rfl
  | cons a t ih =>
      by_cases h : p a
      · simp [List.filter_cons, h, ih]
      · simp [List.filter_cons, h, ih]
        omega

lemma length_filter_range_nonzero (P : ℕ) (hP : 1 ≤ P) :
    ∀ n : ℕ, ((List.range n).filter (fun k => ¬ k * P = 0)).length = n - 1 := by
  intro n
  induction n with
  | zero => rfl
  | succ n ih =>
      rw [List.range_succ, List.filter_append, List.length_append, ih]
      by_cases h : n = 0
      · subst h
        simp
      · have hP0 : ¬ P = 0 := by omega
        simp [List.filter_cons, h, hP0]
        omega

lemma resnet_pool_cntr_eq (in_channels : ℕ) (channels : List ℕ) (P : ℕ)
    (hP : 1 ≤ P) (hN : P ≤ channels.length) :
    (resnetFeatureExtractor in_channels channels P).2 = channels.length / P := by
  rw [show (resnetFeatureExtractor in_channels channels P).2
      = 1 + ((List.range ((channels.length - channels.length % P) / P)).filter
          (fun k => ¬ k * P = 0)).length from rfl]
  rw [length_filter_range_nonzero P hP]
  have hd := Nat.div_add_mod channels.length P
  have hq : 1 ≤ channels.length / P := (Nat.one_le_div_iff (by omega)).2 hN
  have hNd : channels.length - channels.length % P = P * (channels.length / P) := by omega
  rw [hNd, Nat.mul_div_cancel_left _ (by omega : 0 < P)]
  omega

lemma resnet_pool_count_eq_cntr (in_channels : ℕ) (channels : List ℕ) (P : ℕ) :
    (resnetFeatureExtractor in_channels channels P).1.countP isPoolItem
      = (resnetFeatureExtractor in_channels channels P).2 := by
  unfold resnetFeatureExtractor
  simp only [List.countP_append, countP_flatten_map, apply_ite (List.countP isPoolItem),
    List.countP_cons, List.countP_nil, isPoolItem]
  simp only [cond_false, Bool.false_eq_true, if_false, if_true, ite_self,
    Nat.add_zero, Nat.zero_add]
  rw [sum_map_ite_neg (fun k => k * P = 0)]

/-- C3 amended: for every configuration with `pool_every >= 2` and
`len(channels) >= pool_every`, the feature extractors built by both the
plain `ConvClassifier` and the `ResNetClassifier` contain exactly
`floor(len(channels) / pool_every)` max-pool (stride-2 downsampling)
operations.  (As stated, with `pool_every = 1` allowed, the claim fails:
the plain extractor then produces `len(channels) - 1` pools, and for
`len(channels) < pool_every` the residual extractor produces one pool
instead of zero; the plain extractor also places its first pool after two
convolutions rather than after a complete run of `pool_every`.) -/
theorem pool_count_eq_floor_div :
    ∀ (in_channels : ℕ) (channels : List ℕ) (pool_every : ℕ),
      2 ≤ pool_every → pool_every ≤ channels.length →
      (convFeatureExtractor in_channels channels pool_every).1.countP isPoolLayer
          = channels.length / pool_every
      ∧ (resnetFeatureExtractor in_channels channels pool_every).1.countP isPoolItem
          = channels.length / pool_every := by
  intro in_channels channels P hP hN
  constructor
  · rw [plain_pool_count_eq_cntr]
    exact plain_pool_cntr_eq in_channels channels P hP hN
  · rw [resnet_pool_count_eq_cntr]
    exact resnet_pool_cntr_eq in_channels channels P (by omega) hN

/-- Witness for the C3 theorem at `channels = [16,16,32,32]`,
`pool_every = 2`: both extractors contain exactly `4 / 2 = 2` pools. -/
theorem pool_count_eq_floor_div_witness :
    (convFeatureExtractor 3 [16, 16, 32, 32] 2).1.countP isPoolLayer = 2
    ∧ (resnetFeatureExtractor 3 [16, 16, 32, 32] 2).1.countP isPoolItem = 2 :=
  pool_count_eq_floor_div 3 [16, 16, 32, 32] 2 (by decide) (by decide)

/-- C3 counterexample: with the valid configuration `channels = [16,16,16]`,
`pool_every = 1` the plain feature extractor contains 2 max-pool
operations, not `floor(3 / 1) = 3`. -/
theorem pool_count_claim_false_at_P_one :
    (convFeatureExtractor 3 [16, 16, 16] 1).1.countP isPoolLayer
      ≠ ([16, 16, 16] : List ℕ).length / 1 := by
  decide

lemma tanh_repr (x : ℝ) : Real.tanh x = 1 - 2 / (Real.exp (2 * x) + 1) := by
  rw [Real.tanh_eq_sinh_div_cosh, Real.sinh_eq, Real.cosh_eq]
  have h1 : (0:ℝ) < Real.exp x := Real.exp_pos x
  have h3 : Real.exp (2 * x) = Real.exp x * Real.exp x := by
    rw [two_mul, Real.exp_add]
  have h4 : Real.exp (-x) = (Real.exp x)⁻¹ := Real.exp_neg x
  rw [h3, h4]
  have h5 : Real.exp x + (Real.exp x)⁻¹ ≠ 0 := by positivity
  have h6 : Real.exp x * Real.exp x + 1 ≠ 0 := by positivity
  field_simp
  ring

lemma tanh_lt_one' (x : ℝ) : Real.tanh x < 1 := by
  rw [Real.tanh_eq_sinh_div_cosh]
  rw [div_lt_one (Real.cosh_pos x)]
  exact Real.sinh_lt_cosh x

lemma tanh_mono {a b : ℝ} (h : a ≤ b) : Real.tanh a ≤ Real.tanh b := by
  rw [tanh_repr, tanh_repr]
  have he : Real.exp (2 * a) ≤ Real.exp (2 * b) := Real.exp_le_exp.2 (by linarith)
  have ha : (0:ℝ) < Real.exp (2 * a) + 1 := by positivity
  gcongr

lemma abs_tanh_tanh_le (y : ℝ) : |Real.tanh (Real.tanh y)| ≤ Real.tanh 1 := by
  have h1 : Real.tanh y ≤ 1 := le_of_lt (tanh_lt_one' y)
  have h2 : -1 ≤ Real.tanh y := by
    have := tanh_lt_one' (-y)
    rw [Real.tanh_neg] at this
    linarith
  rw [abs_le]
  constructor
  · have h3 : Real.tanh (-1) ≤ Real.tanh (Real.tanh y) := tanh_mono h2
    rw [Real.tanh_neg] at h3
    linarith
  · exact tanh_mono h1

lemma sigmoid_bounds (t : ℝ) : 0 < 1 / (1 + Real.exp (-t)) ∧ 1 / (1 + Real.exp (-t)) < 1 := by
  have he : (0:ℝ) < Real.exp (-t) := Real.exp_pos _
  constructor
  · positivity
  · rw [div_lt_one (by positivity)]
    linarith

lemma applyLayers_append (σ : Layer → Tensor4 → Tensor4) (l1 l2 : List Layer) (x : Tensor4) :
    applyLayers σ (l1 ++ l2) x = applyLayers σ l2 (applyLayers σ l1 x) :=
  List.foldl_append _ _ _ _

lemma applyLayers_last_sigmoid (σ : Layer → Tensor4 → Tensor4) (l : List Layer) (x : Tensor4)
    (h : l.getLast? = some Layer.sigmoid) (n c i j : ℕ) :
    0 < applyLayers σ l x n c i j ∧ applyLayers σ l x n c i j < 1 := by
  have hne : l ≠ [] := by
    intro he
    rw [he] at h
    simp at h
  have hl : l.getLast hne = Layer.sigmoid := by
    rw [List.getLast?_eq_getLast l hne] at h
    exact Option.some.inj h
  have hdec : l = l.dropLast ++ [Layer.sigmoid] := by
    conv_lhs => rw [← List.dropLast_append_getLast hne]
    rw [hl]
  rw [hdec, applyLayers_append]
  have hs : applyLayers σ [Layer.sigmoid] (applyLayers σ l.dropLast x)
      = fun n c i j => 1 / (1 + Real.exp (-(applyLayers σ l.dropLast x n c i j))) := rfl
  rw [hs]
  exact sigmoid_bounds _

/-- C9: every entry of `EncoderCNN.forward`'s output lies strictly in the
open interval `(0, 1)`: the assembled raw layer list ends in a sigmoid,
and `EncoderCNN.forward` runs that list directly (the trailing rectifier
of `EncoderConv.forward` is never applied, since `EncoderCNN` re-wraps
the raw `layers_list`). -/
theorem encoder_cnn_output_in_open_unit_interval :
    ∀ (σ : Layer → Tensor4 → Tensor4) (in_channels out_channels : ℕ) (x : Tensor4) (n c i j : ℕ),
      (EncoderCNN.layers in_channels out_channels).getLast? = some Layer.sigmoid
      ∧ 0 < EncoderCNN.forward σ in_channels out_channels x n c i j
      ∧ EncoderCNN.forward σ in_channels out_channels x n c i j < 1 := by
  intro σ in_channels out_channels x n c i j
  have hlast : (EncoderCNN.layers in_channels out_channels).getLast? = some Layer.sigmoid := by
    rfl
  exact ⟨hlast, applyLayers_last_sigmoid σ _ x hlast n c i j⟩

/-- C10: `VAE.decode` with the `DecoderCNN` as feature decoder applies the
bounding `tanh` twice (once inside `DecoderCNN.forward`, once in `decode`
itself), so every entry of the reconstruction has absolute value at most
`tanh 1`, a strict subinterval of `[-1, 1]`. -/
theorem vae_decode_double_tanh_bound :
    ∀ (σ : Layer → Tensor4 → Tensor4) (Wrec : ℕ → ℕ → ℝ) (brec : ℕ → ℝ)
      (z_dim fC fH fW dec_in dec_out : ℕ) (z : Mat2) (n c i j : ℕ),
      VAE.decode σ Wrec brec z_dim fC fH fW dec_in dec_out z n c i j
          = Real.tanh (Real.tanh (applyLayers σ (DecoderCNN.layers dec_in dec_out)
              (unflattenT fC fH fW (linearB Wrec brec z_dim z)) n c i j))
      ∧ |VAE.decode σ Wrec brec z_dim fC fH fW dec_in dec_out z n c i j| ≤ Real.tanh 1 := by
  intro σ Wrec brec z_dim fC fH fW dec_in dec_out z n c i j
  refine ⟨rfl, ?_⟩
  show |Real.tanh (Real.tanh _)| ≤ Real.tanh 1
  exact abs_tanh_tanh_le _

/-- C8: `VAE.encode` returns `(z, mean, log_variance)` where `mean` and
`log_variance` are two separate (independent) linear projections of the
flattened encoder features, and for the drawn noise `u`,
`z = mean + exp(0.5 * log_variance) * u` entrywise. -/
theorem vae_encode_reparameterization :
    ∀ (features_encoder : Tensor4 → Tensor4) (C H W in_fc_dim : ℕ)
      (Wmu : ℕ → ℕ → ℝ) (bmu : ℕ → ℝ) (Wlv : ℕ → ℕ → ℝ) (blv : ℕ → ℝ)
      (u : Mat2) (x : Tensor4),
      (VAE.encode features_encoder C H W in_fc_dim Wmu bmu Wlv blv u x).2.1
          = linearB Wmu bmu in_fc_dim (flattenT C H W (features_encoder x))
      ∧ (VAE.encode features_encoder C H W in_fc_dim Wmu bmu Wlv blv u x).2.2
          = linearB Wlv blv in_fc_dim (flattenT C H W (features_encoder x))
      ∧ ∀ n k, (VAE.encode features_encoder C H W in_fc_dim Wmu bmu Wlv blv u x).1 n k
          = (VAE.encode features_encoder C H W in_fc_dim Wmu bmu Wlv blv u x).2.1 n k
            + Real.exp (0.5 * (VAE.encode features_encoder C H W in_fc_dim Wmu bmu Wlv blv u x).2.2 n k) * u n k := by
  intro features_encoder C H W in_fc_dim Wmu bmu Wlv blv u x
  refine ⟨rfl, rfl, ?_⟩
  intro n k
  simp only [VAE.encode]
  ring

lemma sum2_sq_nonneg (N K : ℕ) (f : ℕ → ℕ → ℝ) :
    0 ≤ sum2 N K (fun n k => f n k ^ 2) := by
  unfold sum2
  apply Finset.sum_nonneg
  intro n _
  apply Finset.sum_nonneg
  intro k _
  positivity

lemma sum4_sq_nonneg (N C H W : ℕ) (f : ℕ → ℕ → ℕ → ℕ → ℝ) :
    0 ≤ sum4 N C H W (fun n c i j => f n c i j ^ 2) := by
  unfold sum4
  apply Finset.sum_nonneg
  intro n _
  apply Finset.sum_nonneg
  intro c _
  apply Finset.sum_nonneg
  intro i _
  apply Finset.sum_nonneg
  intro j _
  positivity

/-- C1 amended: the data-loss value returned by `vae_loss` equals
`(1/x_sigma2) * ||x - xr||_F^2 / (N*C*H*W)`: the squared Frobenius error
is normalized by the element count of the *whole batch*
(`x.shape[0]*x.shape[1]*x.shape[2]*x.shape[3]`), not by the element count
`C*H*W` of one sample. -/
theorem vae_data_loss_eq_batch_normalized :
    ∀ (Nb C H W z_dim : ℕ) (x xr : Tensor4) (z_mu z_log_sigma2 : Mat2) (x_sigma2 : ℝ),
      (vae_loss Nb C H W z_dim x xr z_mu z_log_sigma2 x_sigma2).2.1
        = (1 / x_sigma2) * sum4 Nb C H W (fun n c i j => (x n c i j - xr n c i j) ^ 2)
            / ((Nb * C * H * W : ℕ) : ℝ) := by
  intro Nb C H W z_dim x xr z_mu z_log_sigma2 x_sigma2
  show (1 / x_sigma2) * (frobNorm4 Nb C H W (fun n c i j => x n c i j - xr n c i j)) ^ 2
      / ((Nb * C * H * W : ℕ) : ℝ) = _
  rw [frobNorm4, Real.sq_sqrt (sum4_sq_nonneg Nb C H W (fun n c i j => x n c i j - xr n c i j))]

/-- C1 counterexample: at `N = 2`, `C = H = W = 1`, `x ≡ 1`, `xr ≡ 0`,
`x_sigma2 = 1` the returned data loss is `1`, while the claimed
per-sample-normalized value `(1/1) * ||x - xr||_F^2 / (C*H*W)` is `2`. -/
theorem vae_data_loss_per_sample_norm_false :
    ¬ ((vae_loss 2 1 1 1 1 (fun _ _ _ _ => 1) (fun _ _ _ _ => 0) (fun _ _ => 0) (fun _ _ => 0) 1).2.1
        = (1 / (1:ℝ)) * sum4 2 1 1 1 (fun n c i j =>
            ((fun _ _ _ _ => (1:ℝ)) n c i j - (fun _ _ _ _ => (0:ℝ)) n c i j) ^ 2)
          / ((1 * 1 * 1 : ℕ) : ℝ)) := by
  have hS : sum4 2 1 1 1 (fun n c i j =>
      ((fun _ _ _ _ => (1:ℝ)) n c i j - (fun _ _ _ _ => (0:ℝ)) n c i j) ^ 2) = 2 := by
    simp [sum4, Finset.sum_range_succ]
  intro h
  rw [vae_data_loss_eq_batch_normalized, hS] at h
  norm_num at h

/-- C2: the KL-divergence value returned by `vae_loss` equals
`(sum(exp(log_variance)) + ||mean||_F^2 - sum(log_variance)) / N - z_dim`,
with the sums and the squared Frobenius norm running over all batch and
latent dimensions combined and `z_dim` subtracted once from the averaged
expression; consequently the KL value is `0` whenever `mean` and
`log_variance` are identically zero (for a positive batch size). -/
theorem vae_kldiv_closed_form :
    (∀ (Nb C H W z_dim : ℕ) (x xr : Tensor4) (z_mu z_log_sigma2 : Mat2) (x_sigma2 : ℝ),
      (vae_loss Nb C H W z_dim x xr z_mu z_log_sigma2 x_sigma2).2.2
        = (sum2 Nb z_dim (fun n k => Real.exp (z_log_sigma2 n k))
            + sum2 Nb z_dim (fun n k => z_mu n k ^ 2)
            - sum2 Nb z_dim (fun n k => z_log_sigma2 n k)) / (Nb : ℝ) - (z_dim : ℝ))
    ∧ (∀ (Nb C H W z_dim : ℕ) (x xr : Tensor4) (x_sigma2 : ℝ), 0 < Nb →
      (vae_loss Nb C H W z_dim x xr (fun _ _ => 0) (fun _ _ => 0) x_sigma2).2.2 = 0) := by
  constructor
  · intro Nb C H W z_dim x xr z_mu z_log_sigma2 x_sigma2
    show (sum2 Nb z_dim (fun n k => Real.exp (z_log_sigma2 n k))
        + (frobNorm2 Nb z_dim z_mu) ^ 2 - sum2 Nb z_dim (fun n k => z_log_sigma2 n k))
          / (Nb : ℝ) - (z_dim : ℝ) = _
    rw [frobNorm2, Real.sq_sqrt (sum2_sq_nonneg Nb z_dim z_mu)]
  · intro Nb C H W z_dim x xr x_sigma2 hN
    have hN0 : (Nb : ℝ) ≠ 0 := Nat.cast_ne_zero.2 (by omega)
    show (sum2 Nb z_dim (fun n k => Real.exp ((0:ℝ)))
        + (frobNorm2 Nb z_dim (fun _ _ => 0)) ^ 2
        - sum2 Nb z_dim (fun n k => (0:ℝ))) / (Nb : ℝ) - (z_dim : ℝ) = 0
    have h1 : sum2 Nb z_dim (fun n k => Real.exp ((0:ℝ))) = (Nb : ℝ) * (z_dim : ℝ) := by
      simp [sum2, Real.exp_zero, Finset.sum_const, Finset.card_range]
    have h2 : frobNorm2 Nb z_dim (fun _ _ => 0) = 0 := by
      simp [frobNorm2, sum2]
    have h3 : sum2 Nb z_dim (fun n k => (0:ℝ)) = 0 := by
      simp [sum2]
    rw [h1, h2, h3]
    field_simp

/-- Witness for the C2 theorem at `N = 1`, `z_dim = 1`, all-zero `mean`
and `log_variance`. -/
theorem vae_kldiv_closed_form_witness :
    (vae_loss 1 1 1 1 1 (fun _ _ _ _ => 0) (fun _ _ _ _ => 0)
        (fun _ _ => 0) (fun _ _ => 0) 1).2.2 = 0 :=
  vae_kldiv_closed_form.2 1 1 1 1 1 (fun _ _ _ _ => 0) (fun _ _ _ _ => 0) 1 (by norm_num)
